import Mathlib

/-!
Shallow embedding of `src/notebooks/2015/mode/transit_mode.ipynb` (SANDAG
Summary_OBS).  The notebook joins a categorical column `transit_mode` with two
weight columns (`unlinked_weight`, `linked_weight`), groups by the category,
builds a summary table with two appended total rows, renders the table to HTML
with Python format strings, and draws a grouped bar chart of the three percent
series.

Modelling conventions:
* a pandas row is a `Row`; a missing value (NaN / null) is `none`;
* weights are exact rationals `ℚ` (the notebook uses IEEE floats; every claim
  here is about exact quantities, so `ℚ` is the faithful exact-arithmetic
  reading);
* pandas float division by zero never raises and produces a non-finite value
  (NaN for 0/0, signed infinity otherwise); both non-finite outcomes are
  modelled as `none` by `divOpt`;
* `total_valid / total` in the notebook divides two Python `int`s (results of
  `len`), which raises `ZeroDivisionError` when `total = 0`; the table
  construction is therefore `Except`-valued (`tableRows`);
* `Series.sum()` skips missing values and returns `0.0` on an all-missing or
  empty series: `optSum`;
* `groupby("transit_mode", observed=True)` drops rows whose key is missing and
  keeps one group per observed category.  The group order comes from the stored
  categorical dtype; it is modelled as order of first appearance
  (`dedupFirst`), which is deterministic; no claim below depends on the order
  of the per-category rows.
-/

/-- One joined input record: `transit_mode` column plus the two weight
columns.  `none` models a missing (NaN) entry. -/
structure Row where
  transit_mode : Option String
  unlinked_weight : Option ℚ
  linked_weight : Option ℚ
deriving DecidableEq

/-- Float division as pandas performs it elementwise: a zero denominator
yields a non-finite marker (NaN or ±inf), modelled as `none`; otherwise the
exact quotient. -/
def divOpt (a b : ℚ) : Option ℚ := if b = 0 then none else some (a / b)

/-- `Series.sum()`: missing entries are skipped (contribute `0`), and the sum
of an empty or all-missing series is `0`. -/
def optSum (l : List (Option ℚ)) : ℚ := (l.map (fun o => o.getD 0)).sum

/-- Recursion worker for `dedupFirst`, structurally recursive on a length
fuel so that it evaluates by kernel reduction. -/
def dedupFirstFuel {β : Type} [DecidableEq β] : ℕ → List β → List β
  | _, [] => []
  | 0, _ :: _ => []
  | n + 1, c :: cs => c :: dedupFirstFuel n (cs.filter (fun x => x ≠ c))

/-- Distinct elements of a list in order of first appearance: the group keys
of a pandas `groupby` (deterministic order; see header). -/
def dedupFirst {β : Type} [DecidableEq β] (l : List β) : List β :=
  dedupFirstFuel l.length l

/-- Rows of one `groupby` group: those whose `transit_mode` equals `some c`
(rows with a missing key belong to no group). -/
def catRows (rs : List Row) (c : String) : List Row :=
  rs.filter (fun r => r.transit_mode = some c)

/-- Index of the grouped series: the observed categories. -/
def groupKeys (rs : List Row) : List String :=
  dedupFirst (rs.filterMap Row.transit_mode)

/-- `unweighted = transit_mode.groupby("transit_mode", observed=True).size()`,
read at key `c`. -/
def unweighted (rs : List Row) (c : String) : ℕ := (catRows rs c).length

/-- `unlinked = ....groupby(...).unlinked_weight.sum()`, read at key `c`. -/
def unlinked (rs : List Row) (c : String) : ℚ :=
  optSum ((catRows rs c).map Row.unlinked_weight)

/-- `linked = ....groupby(...).linked_weight.sum()`, read at key `c`. -/
def linked (rs : List Row) (c : String) : ℚ :=
  optSum ((catRows rs c).map Row.linked_weight)

/-- `total_valid = len(transit_mode.dropna())`: rows with every field
present. -/
def total_valid (rs : List Row) : ℕ :=
  (rs.filter (fun r =>
    r.transit_mode.isSome ∧ r.unlinked_weight.isSome ∧ r.linked_weight.isSome)).length

/-- `total = len(transit_mode)`. -/
def total (rs : List Row) : ℕ := rs.length

/-- `unlinked_total = transit_mode.unlinked_weight.sum()` (all rows, missing
skipped). -/
def unlinked_total (rs : List Row) : ℚ := optSum (rs.map Row.unlinked_weight)

/-- `linked_total = transit_mode.linked_weight.sum()`. -/
def linked_total (rs : List Row) : ℚ := optSum (rs.map Row.linked_weight)

/-- `unweighted.sum()`: the sum of the grouped size series. -/
def unweighted_sum (rs : List Row) : ℕ :=
  ((groupKeys rs).map (unweighted rs)).sum

/-- `unlinked.sum()`: the sum of the grouped unlinked-weight series. -/
def unlinked_sum (rs : List Row) : ℚ :=
  ((groupKeys rs).map (unlinked rs)).sum

/-- `linked.sum()`: the sum of the grouped linked-weight series. -/
def linked_sum (rs : List Row) : ℚ :=
  ((groupKeys rs).map (linked rs)).sum

/-- One row of the summary table: the six `(metric, stat)` columns of the
notebook's wide frame plus the index label.  Percent cells are `Option ℚ`
because the `"Total"` row leaves them unset (NaN) and float division can
produce a non-finite value. -/
structure SummaryRow where
  label : String
  unweighted_count : ℕ
  unweighted_percent : Option ℚ
  unlinked_weight_sum : ℚ
  unlinked_weight_percent : Option ℚ
  linked_weight_sum : ℚ
  linked_weight_percent : Option ℚ
deriving DecidableEq

/-- The per-category row of the `summary` frame at index `c`: counts and sums
from the grouped series, percents by elementwise division by the series
totals (`unweighted / unweighted.sum()` etc.). -/
def summaryRow (rs : List Row) (c : String) : SummaryRow :=
  { label := c
    unweighted_count := unweighted rs c
    unweighted_percent := divOpt (unweighted rs c) (unweighted_sum rs)
    unlinked_weight_sum := unlinked rs c
    unlinked_weight_percent := divOpt (unlinked rs c) (unlinked_sum rs)
    linked_weight_sum := linked rs c
    linked_weight_percent := divOpt (linked rs c) (linked_sum rs) }

/-- The `summary` frame: one row per observed category. -/
def summary (rs : List Row) : List SummaryRow :=
  (groupKeys rs).map (summaryRow rs)

/-- The appended `"Total valid"` row.  Its `unweighted_percent` is
`total_valid / total`; the guard for `total = 0` (a Python `int` zero
division, which raises) lives in `tableRows`, so here the division is the
same `divOpt` and is `some` whenever the row is actually built.  Its weight
percents divide the valid-category sums by the all-row totals
(`unlinked.sum() / unlinked_total` etc.). -/
def totalValidRow (rs : List Row) : SummaryRow :=
  { label := "Total valid"
    unweighted_count := total_valid rs
    unweighted_percent := divOpt (total_valid rs) (total rs)
    unlinked_weight_sum := unlinked_sum rs
    unlinked_weight_percent := divOpt (unlinked_sum rs) (unlinked_total rs)
    linked_weight_sum := linked_sum rs
    linked_weight_percent := divOpt (linked_sum rs) (linked_total rs) }

/-- The appended `"Total"` row: counts and sums over all rows, percent cells
left unset (NaN). -/
def totalRow (rs : List Row) : SummaryRow :=
  { label := "Total"
    unweighted_count := total rs
    unweighted_percent := none
    unlinked_weight_sum := unlinked_total rs
    unlinked_weight_percent := none
    linked_weight_sum := linked_total rs
    linked_weight_percent := none }

/-- The concatenated table (summary rows, then `"Total valid"`, then
`"Total"`).  `total_valid / total` divides two Python `int`s; when
`total = 0` that raises `ZeroDivisionError`, modelled as `Except.error`. -/
def tableRows (rs : List Row) : Except String (List SummaryRow) :=
  if total rs = 0 then Except.error "ZeroDivisionError"
  else Except.ok (summary rs ++ [totalValidRow rs, totalRow rs])

/-- Recursion worker for `commasAux`, structurally recursive on a length
fuel. -/
def commasAuxFuel : ℕ → List Char → List Char
  | 0, ds => ds
  | n + 1, ds =>
    if ds.length ≤ 3 then ds
    else ds.take 3 ++ ',' :: commasAuxFuel n (ds.drop 3)

/-- Insert thousands separators into a digit list given least-significant
digit first (the Python comma flag). -/
def commasAux (ds : List Char) : List Char := commasAuxFuel ds.length ds

/-- Decimal digits of a natural number with thousands separators. -/
def commaFmt (n : ℕ) : String :=
  String.mk (commasAux (toString n).data.reverse).reverse

/-- Round to the nearest integer, ties to even, as Python string formatting
rounds. -/
def roundHalfEven (q : ℚ) : ℤ :=
  if q - ⌊q⌋ < 1 / 2 then ⌊q⌋
  else if 1 / 2 < q - ⌊q⌋ then ⌊q⌋ + 1
  else if ⌊q⌋ % 2 = 0 then ⌊q⌋ else ⌊q⌋ + 1

/-- Python format spec `,.2%` on an exact rational: the value times 100 with
two decimal places, thousands separators and a percent sign. -/
def fmtPercent (q : ℚ) : String :=
  let n := roundHalfEven (q * 10000)
  let m := n.natAbs
  let frac := m % 100
  (if n < 0 then "-" else "") ++ commaFmt (m / 100) ++ "." ++
    (if frac < 10 then "0" else "") ++ toString frac ++ "%"

/-- Python format spec `,.0f`: round to zero decimals, thousands
separators. -/
def fmtFloat0 (q : ℚ) : String :=
  let n := roundHalfEven q
  (if n < 0 then "-" else "") ++ commaFmt n.natAbs

/-- The `,.0f` formatter applied to an integer count column. -/
def fmtCount (n : ℕ) : String := commaFmt n

/-- How `to_html` renders one percent cell: a missing value prints the
default `na_rep` text `"NaN"` (pandas does not hand missing values to the
supplied formatter); a present value goes through the column formatter. -/
def renderPercentCell : Option ℚ → String
  | none => "NaN"
  | some q => fmtPercent q

/-- One rendered table row (index label, then the six formatted cells) as
`to_html` lays it out with the notebook's formatters. -/
def renderRow (row : SummaryRow) : List String :=
  [row.label,
   fmtCount row.unweighted_count,
   renderPercentCell row.unweighted_percent,
   fmtFloat0 row.unlinked_weight_sum,
   renderPercentCell row.unlinked_weight_percent,
   fmtFloat0 row.linked_weight_sum,
   renderPercentCell row.linked_weight_percent]

/-- `table`: the HTML string the notebook keeps, modelled as the list of
rendered rows (or the propagated `ZeroDivisionError`). -/
def table (rs : List Row) : Except String (List (List String)) :=
  (tableRows rs).map (fun rows => rows.map renderRow)

/-- One plotly bar trace: x labels, y values, legend name. -/
structure Trace where
  x : List String
  y : List (Option ℚ)
  name : String
deriving DecidableEq

/-- The plotly figure: the added traces and the layout fields set by
`update_layout`. -/
structure Figure where
  traces : List Trace
  title_text : String
  yaxis_range : ℚ × ℚ
  yaxis_tickformat : String
  xaxis_title : String
  yaxis_title : String
deriving DecidableEq

/-- The chart cell: three bar traces built from the `summary` frame only
(`x = summary.index`, `y` the three percent columns), then `update_layout`
with a y-axis range fixed to zero-to-one. -/
def figure (rs : List Row) : Figure :=
  { traces :=
      [ { x := (summary rs).map SummaryRow.label
          y := (summary rs).map SummaryRow.unweighted_percent
          name := "Unweighted" },
        { x := (summary rs).map SummaryRow.label
          y := (summary rs).map SummaryRow.unlinked_weight_percent
          name := "Weighted (Unlinked)" },
        { x := (summary rs).map SummaryRow.label
          y := (summary rs).map SummaryRow.linked_weight_percent
          name := "Weighted (Linked)" } ]
    title_text := "Unweighted and Weighted Responses by Transit Mode"
    yaxis_range := (0, 1)
    yaxis_tickformat := ",.0%"
    xaxis_title := "Age"
    yaxis_title := "Percent" }

/-- Spec-side quantity: the rows with a non-null category. -/
def validRows (rs : List Row) : List Row :=
  rs.filter (fun r => r.transit_mode.isSome)

/-- Spec-side quantity: the number of rows with a non-null category. -/
def validCount (rs : List Row) : ℕ := (validRows rs).length

/-- Spec-side quantity: the unlinked-weight sum over non-null-category
rows. -/
def validUnlinkedSum (rs : List Row) : ℚ :=
  optSum ((validRows rs).map Row.unlinked_weight)

/-- Spec-side quantity: the linked-weight sum over non-null-category rows. -/
def validLinkedSum (rs : List Row) : ℚ :=
  optSum ((validRows rs).map Row.linked_weight)

/-- The rows with a missing category. -/
def nullRows (rs : List Row) : List Row :=
  rs.filter (fun r => r.transit_mode = none)

/-- Unlinked-weight sum over the missing-category rows. -/
def nullUnlinkedSum (rs : List Row) : ℚ :=
  optSum ((nullRows rs).map Row.unlinked_weight)

/-- Linked-weight sum over the missing-category rows. -/
def nullLinkedSum (rs : List Row) : ℚ :=
  optSum ((nullRows rs).map Row.linked_weight)

/-- The spec's worked example: categories Bus, Bus, Rail, null; both weight
columns are 1, 1, 2, 5. -/
def exampleRows : List Row :=
  [⟨some "Bus", some 1, some 1⟩, ⟨some "Bus", some 1, some 1⟩,
   ⟨some "Rail", some 2, some 2⟩, ⟨none, some 5, some 5⟩]

/-- The worked example restricted to its non-null-category rows. -/
def exampleValidRows : List Row :=
  [⟨some "Bus", some 1, some 1⟩, ⟨some "Bus", some 1, some 1⟩,
   ⟨some "Rail", some 2, some 2⟩]

/-- A row with a category present but its unlinked weight missing. -/
def partialRow : Row := ⟨some "Bus", none, some 1⟩

/-- One categorised row whose weights are both zero. -/
def zeroWeightRows : List Row := [⟨some "Bus", some 0, some 0⟩]

section GroupLemmas

variable {α β : Type} [DecidableEq β] {M : Type} [AddCommMonoid M]

/-- The fuel argument of `dedupFirstFuel` is irrelevant once it covers the
list length. -/
lemma dedupFirstFuel_congr :
    ∀ (n m : ℕ) (l : List β), l.length ≤ n → l.length ≤ m →
      dedupFirstFuel n l = dedupFirstFuel m l := by
  intro n
  induction n with
  | zero =>
    intro m l hn _
    have h0 : l = [] := List.length_eq_zero.mp (Nat.le_zero.mp hn)
    subst h0
    cases m <;> rfl
  | succ n ih =>
    intro m l hn hm
    match l with
    | [] => cases m <;> rfl
    | c :: cs =>
      match m with
      | 0 => exact absurd hm (by simp)
      | m + 1 =>
        show c :: dedupFirstFuel n (cs.filter (fun x => x ≠ c))
            = c :: dedupFirstFuel m (cs.filter (fun x => x ≠ c))
        congr 1
        exact ih m _
          (le_trans (List.length_filter_le _ _) (Nat.le_of_succ_le_succ hn))
          (le_trans (List.length_filter_le _ _) (Nat.le_of_succ_le_succ hm))

/-- The defining recursion of `dedupFirst`. -/
lemma dedupFirst_cons (c : β) (cs : List β) :
    dedupFirst (c :: cs) = c :: dedupFirst (cs.filter (fun x => x ≠ c)) := by
  show dedupFirstFuel (cs.length + 1) (c :: cs) = _
  show c :: dedupFirstFuel cs.length (cs.filter (fun x => x ≠ c)) = _
  congr 1
  exact dedupFirstFuel_congr cs.length (cs.filter (fun x => x ≠ c)).length _
    (List.length_filter_le _ _) le_rfl

/-- Membership in `dedupFirstFuel` implies membership in the list. -/
lemma mem_dedupFirstFuel :
    ∀ (n : ℕ) (l : List β) (c : β), c ∈ dedupFirstFuel n l → c ∈ l := by
  intro n
  induction n with
  | zero =>
    intro l c h
    cases l <;> simp [dedupFirstFuel] at h
  | succ n ih =>
    intro l c h
    match l with
    | [] => simp [dedupFirstFuel] at h
    | a :: cs =>
      have hstep : dedupFirstFuel (n + 1) (a :: cs)
          = a :: dedupFirstFuel n (cs.filter (fun x => x ≠ a)) := rfl
      rw [hstep] at h
      rcases List.mem_cons.mp h with rfl | h2
      · exact List.mem_cons_self _ _
      · exact List.mem_cons_of_mem _ (List.mem_of_mem_filter (ih _ _ h2))

/-- Membership in `dedupFirst` implies membership in the list. -/
lemma mem_dedupFirst (l : List β) (c : β) (h : c ∈ dedupFirst l) : c ∈ l :=
  mem_dedupFirstFuel _ _ _ h

/-- Removing one key from the extracted key list is the same as dropping the
rows carrying that key before extraction. -/
lemma filterMap_filter_ne (key : α → Option β) (c : β) (l : List α) :
    (l.filterMap key).filter (fun x => x ≠ c)
    = (l.filter (fun x => ¬ key x = some c)).filterMap key := by
  induction l with
  | nil => rfl
  | cons a l ih =>
    cases h : key a with
    | none =>
      simpa [List.filterMap_cons, List.filter_cons, h] using ih
    | some d =>
      by_cases hdc : d = c
      · subst hdc
        simpa [List.filterMap_cons, List.filter_cons, h] using ih
      · simpa [List.filterMap_cons, List.filter_cons, h, hdc] using ih

/-- Rows of key `d` are untouched by first dropping the rows of a different
key `c`. -/
lemma filter_key_of_ne (key : α → Option β) {c d : β} (hdc : d ≠ c) (l : List α) :
    (l.filter (fun x => ¬ key x = some c)).filter (fun x => key x = some d)
    = l.filter (fun x => key x = some d) := by
  induction l with
  | nil => rfl
  | cons a l ih =>
    by_cases h : key a = some d
    · have h2 : ¬ key a = some c := by
        rw [h]
        simp [hdc]
      simpa [List.filter_cons, h, h2, hdc] using ih
    · by_cases h3 : key a = some c
      · simpa [List.filter_cons, h, h3, Ne.symm hdc] using ih
      · simpa [List.filter_cons, h, h3] using ih

/-- Splitting the non-null-key rows into the rows of key `c` and the rest. -/
lemma sum_filter_isSome_split (key : α → Option β) (g : α → M) (c : β)
    (l : List α) :
    ((l.filter (fun x => (key x).isSome)).map g).sum
    = ((l.filter (fun x => key x = some c)).map g).sum
      + (((l.filter (fun x => ¬ key x = some c)).filter
          (fun x => (key x).isSome)).map g).sum := by
  induction l with
  | nil => simp
  | cons a l ih =>
    cases h : key a with
    | none => simpa [List.filter_cons, h] using ih
    | some d =>
      by_cases hdc : d = c
      · subst hdc
        simp [List.filter_cons, h, ih, add_assoc]
      · simp [List.filter_cons, h, hdc, ih]
        abel

/-- Fiberwise summation: summing a quantity group-by-group over the distinct
keys equals summing it over all rows that carry a key.  This is the identity
behind `series.sum()` of a grouped series. -/
lemma groupSum_key (key : α → Option β) (g : α → M) :
    ∀ l : List α,
      ((dedupFirst (l.filterMap key)).map
        (fun c => ((l.filter (fun x => key x = some c)).map g).sum)).sum
      = ((l.filter (fun x => (key x).isSome)).map g).sum := by
  suffices H : ∀ (n : ℕ) (l : List α), l.length ≤ n →
      ((dedupFirst (l.filterMap key)).map
        (fun c => ((l.filter (fun x => key x = some c)).map g).sum)).sum
      = ((l.filter (fun x => (key x).isSome)).map g).sum by
    exact fun l => H l.length l le_rfl
  intro n
  induction n with
  | zero =>
    intro l hl
    have : l = [] := List.length_eq_zero.mp (Nat.le_zero.mp hl)
    subst this
    simp [dedupFirst, dedupFirstFuel]
  | succ n ih =>
    intro l hl
    match l with
    | [] => simp [dedupFirst, dedupFirstFuel]
    | r :: l' =>
      have hl' : l'.length ≤ n := Nat.le_of_succ_le_succ (by simpa using hl)
      cases hk : key r with
      | none =>
        have hfm : (r :: l').filterMap key = l'.filterMap key := by
          simp [List.filterMap_cons, hk]
        have hfil2 : (r :: l').filter (fun x => (key x).isSome)
            = l'.filter (fun x => (key x).isSome) := by
          simp [List.filter_cons, hk]
        rw [hfm, hfil2, ← ih l' hl']
        apply congrArg List.sum
        apply List.map_congr_left
        intro d _
        have hone : (r :: l').filter (fun x => key x = some d)
            = l'.filter (fun x => key x = some d) := by
          simp [List.filter_cons, hk]
        rw [hone]
      | some c =>
        have hfm : (r :: l').filterMap key = c :: l'.filterMap key := by
          simp [List.filterMap_cons, hk]
        have hl2 : (l'.filter (fun x => ¬ key x = some c)).length ≤ n :=
          le_trans (List.length_filter_le _ _) hl'
        have hkey2 : (l'.filterMap key).filter (fun x => x ≠ c)
            = (l'.filter (fun x => ¬ key x = some c)).filterMap key :=
          filterMap_filter_ne key c l'
        rw [hfm, dedupFirst_cons, List.map_cons, List.sum_cons, hkey2]
        have hhead : (r :: l').filter (fun x => key x = some c)
            = r :: l'.filter (fun x => key x = some c) := by
          simp [List.filter_cons, hk]
        have hgrp : ((dedupFirst
              ((l'.filter (fun x => ¬ key x = some c)).filterMap key)).map
            (fun d => (((r :: l').filter (fun x => key x = some d)).map g).sum)).sum
            = ((dedupFirst
              ((l'.filter (fun x => ¬ key x = some c)).filterMap key)).map
            (fun d => (((l'.filter (fun x => ¬ key x = some c)).filter
              (fun x => key x = some d)).map g).sum)).sum := by
          apply congrArg List.sum
          apply List.map_congr_left
          intro d hd
          have hd' : d ∈ (l'.filter (fun x => ¬ key x = some c)).filterMap key :=
            mem_dedupFirst _ _ hd
          obtain ⟨x, hx, hxd⟩ := List.mem_filterMap.mp hd'
          have hxc : ¬ key x = some c := by simpa using List.of_mem_filter hx
          have hdc : d ≠ c := by
            rintro rfl
            exact hxc hxd
          have hr : ¬ key r = some d := by
            rw [hk]
            simp [Ne.symm hdc]
          have hone : (r :: l').filter (fun x => key x = some d)
              = l'.filter (fun x => key x = some d) := by
            simp [List.filter_cons, hr]
          rw [hone, filter_key_of_ne key hdc]
        rw [hgrp, ih _ hl2, hhead]
        have hfil2 : (r :: l').filter (fun x => (key x).isSome)
            = r :: l'.filter (fun x => (key x).isSome) := by
          simp [List.filter_cons, hk]
        rw [hfil2, List.map_cons, List.sum_cons, List.map_cons, List.sum_cons,
          sum_filter_isSome_split key g c l', add_assoc]

end GroupLemmas

section BridgeLemmas

variable {γ : Type} {M : Type} [AddCommMonoid M]

/-- A sum of ones is a length. -/
lemma sum_map_one (l : List γ) : (l.map (fun _ => (1 : ℕ))).sum = l.length := by
  induction l with
  | nil => rfl
  | cons a l ih => simp [ih, Nat.add_comm]

/-- `optSum` over a mapped column in terms of a plain sum with default 0. -/
lemma optSum_map (f : γ → Option ℚ) (l : List γ) :
    optSum (l.map f) = (l.map (fun a => (f a).getD 0)).sum := by
  simp [optSum, List.map_map]
  rfl

/-- A list sum splits across a boolean predicate. -/
lemma sum_split_bool (g : γ → M) (p : γ → Bool) (l : List γ) :
    (l.map g).sum
    = ((l.filter p).map g).sum + ((l.filter (fun a => ! p a)).map g).sum := by
  induction l with
  | nil => simp
  | cons a l ih =>
    cases h : p a
    · simp [List.filter_cons, h, ih]
      abel
    · simp [List.filter_cons, h, ih, add_assoc]

/-- Dividing each entry then summing is summing then dividing. -/
lemma sum_map_div (l : List γ) (f : γ → ℚ) (S : ℚ) :
    (l.map (fun a => f a / S)).sum = (l.map f).sum / S := by
  induction l with
  | nil => simp
  | cons a l ih => simp [ih, add_div]

/-- `optSum` equals the sum of the present entries. -/
lemma optSum_eq_filterMap_sum (l : List (Option ℚ)) :
    optSum l = (l.filterMap id).sum := by
  induction l with
  | nil => rfl
  | cons o l ih =>
    cases o with
    | none => simpa [optSum, List.filterMap_cons] using ih
    | some q =>
      simp [optSum, List.filterMap_cons] at ih ⊢
      rw [ih]

/-- `divOpt` of a nonzero value by itself is exactly one. -/
lemma divOpt_self {x : ℚ} (h : x ≠ 0) : divOpt x x = some 1 := by
  simp [divOpt, h, div_self h]

/-- `divOpt` with a nonzero denominator is the exact quotient. -/
lemma divOpt_of_ne {a b : ℚ} (h : b ≠ 0) : divOpt a b = some (a / b) := by
  simp [divOpt, h]

/-- The sum of the grouped size series is the number of rows with a non-null
category: `unweighted.sum()` counts exactly the valid-category rows. -/
lemma unweighted_sum_eq_validCount (rs : List Row) :
    unweighted_sum rs = validCount rs := by
  have h := groupSum_key (M := ℕ) Row.transit_mode (fun _ => 1) rs
  unfold unweighted_sum validCount validRows groupKeys unweighted catRows
  calc ((dedupFirst (rs.filterMap Row.transit_mode)).map
        (fun c => (rs.filter (fun r => r.transit_mode = some c)).length)).sum
      = ((dedupFirst (rs.filterMap Row.transit_mode)).map
        (fun c => ((rs.filter (fun r => r.transit_mode = some c)).map
          (fun _ => (1 : ℕ))).sum)).sum := by
        apply congrArg List.sum
        apply List.map_congr_left
        intro c _
        rw [sum_map_one]
    _ = ((rs.filter (fun r => r.transit_mode.isSome)).map (fun _ => (1 : ℕ))).sum :=
        h
    _ = (rs.filter (fun r => r.transit_mode.isSome)).length := sum_map_one _

/-- `unlinked.sum()` is the unlinked-weight sum over the valid-category
rows. -/
lemma unlinked_sum_eq_validUnlinkedSum (rs : List Row) :
    unlinked_sum rs = validUnlinkedSum rs := by
  have h := groupSum_key (M := ℚ) Row.transit_mode
    (fun r => r.unlinked_weight.getD 0) rs
  unfold unlinked_sum validUnlinkedSum validRows groupKeys unlinked catRows
  rw [optSum_map, ← h]
  apply congrArg List.sum
  apply List.map_congr_left
  intro c _
  rw [optSum_map]

/-- `linked.sum()` is the linked-weight sum over the valid-category rows. -/
lemma linked_sum_eq_validLinkedSum (rs : List Row) :
    linked_sum rs = validLinkedSum rs := by
  have h := groupSum_key (M := ℚ) Row.transit_mode
    (fun r => r.linked_weight.getD 0) rs
  unfold linked_sum validLinkedSum validRows groupKeys linked catRows
  rw [optSum_map, ← h]
  apply congrArg List.sum
  apply List.map_congr_left
  intro c _
  rw [optSum_map]

/-- The all-row unlinked total splits into the valid-category part and the
missing-category part. -/
lemma unlinked_total_split (rs : List Row) :
    unlinked_total rs = validUnlinkedSum rs + nullUnlinkedSum rs := by
  have h := sum_split_bool (M := ℚ) (fun r : Row => r.unlinked_weight.getD 0)
    (fun r : Row => r.transit_mode.isSome) rs
  have h2 : rs.filter (fun a => ! a.transit_mode.isSome)
      = rs.filter (fun r => r.transit_mode = none) := by
    apply List.filter_congr
    intro r _
    cases hr : r.transit_mode <;> simp [hr]
  rw [h2] at h
  unfold unlinked_total validUnlinkedSum nullUnlinkedSum validRows nullRows
  rw [optSum_map, optSum_map, optSum_map]
  exact h

/-- The all-row linked total splits into the valid-category part and the
missing-category part. -/
lemma linked_total_split (rs : List Row) :
    linked_total rs = validLinkedSum rs + nullLinkedSum rs := by
  have h := sum_split_bool (M := ℚ) (fun r : Row => r.linked_weight.getD 0)
    (fun r : Row => r.transit_mode.isSome) rs
  have h2 : rs.filter (fun a => ! a.transit_mode.isSome)
      = rs.filter (fun r => r.transit_mode = none) := by
    apply List.filter_congr
    intro r _
    cases hr : r.transit_mode <;> simp [hr]
  rw [h2] at h
  unfold linked_total validLinkedSum nullLinkedSum validRows nullRows
  rw [optSum_map, optSum_map, optSum_map]
  exact h

end BridgeLemmas

/-- Mapping a function over the summary frame is mapping over the group
keys. -/
lemma summary_map_eq {δ : Type} (rs : List Row) (f : SummaryRow → δ) :
    (summary rs).map f = (groupKeys rs).map (fun c => f (summaryRow rs c)) := by
  unfold summary
  rw [List.map_map]
  rfl

/-- `optSum` of a mapped optional column is the sum of its present values. -/
lemma optSum_map_eq_filterMap {γ : Type} (f : γ → Option ℚ) (l : List γ) :
    optSum (l.map f) = (l.filterMap f).sum := by
  rw [optSum_eq_filterMap_sum, List.filterMap_map]
  rfl

/-- C1 is false on the code: on the spec's own worked example (one
null-category row carrying weight 5) the `"Total valid"` row's weight
percents are `4/9`, not 100%, because the notebook divides the
valid-category weight sum by `unlinked_total` / `linked_total`, which sum
over ALL rows including the null-category ones. -/
theorem c1_total_valid_percent_counterexample :
    (totalValidRow exampleRows).unlinked_weight_percent = some (4 / 9) ∧
    (totalValidRow exampleRows).linked_weight_percent = some (4 / 9) ∧
    ¬ ((totalValidRow exampleRows).unlinked_weight_percent = some 1 ∧
       (totalValidRow exampleRows).linked_weight_percent = some 1) := by
  norm_num +decide [totalValidRow, unlinked_sum, linked_sum, groupKeys, dedupFirst,
    dedupFirstFuel, exampleRows, unlinked, linked, catRows, optSum, divOpt,
    unlinked_total, linked_total, List.filter_cons, List.filter_nil]

/-- C1 (amended): the `"Total valid"` row's weight percents equal the
valid-category weight sum divided by the all-row weight total; they are
exactly 100% precisely in the benign case that the missing-category rows
carry zero total weight and the all-row total is nonzero. -/
theorem c1_total_valid_percent_amended (rs : List Row)
    (h1 : nullUnlinkedSum rs = 0) (h2 : unlinked_total rs ≠ 0)
    (h3 : nullLinkedSum rs = 0) (h4 : linked_total rs ≠ 0) :
    (totalValidRow rs).unlinked_weight_percent = some 1 ∧
    (totalValidRow rs).linked_weight_percent = some 1 := by
  constructor
  · have hs : unlinked_sum rs = unlinked_total rs := by
      rw [unlinked_sum_eq_validUnlinkedSum, unlinked_total_split rs, h1, add_zero]
    show divOpt (unlinked_sum rs) (unlinked_total rs) = some 1
    rw [hs]
    exact divOpt_self h2
  · have hs : linked_sum rs = linked_total rs := by
      rw [linked_sum_eq_validLinkedSum, linked_total_split rs, h3, add_zero]
    show divOpt (linked_sum rs) (linked_total rs) = some 1
    rw [hs]
    exact divOpt_self h4

/-- C1 witness: the amended statement at the all-valid prefix of the worked
example. -/
theorem c1_total_valid_percent_witness :
    (totalValidRow exampleValidRows).unlinked_weight_percent = some 1 ∧
    (totalValidRow exampleValidRows).linked_weight_percent = some 1 :=
  c1_total_valid_percent_amended exampleValidRows
    (by norm_num +decide [nullUnlinkedSum, nullRows, exampleValidRows, optSum,
      List.filter_cons, List.filter_nil])
    (by norm_num +decide [unlinked_total, exampleValidRows, optSum])
    (by norm_num +decide [nullLinkedSum, nullRows, exampleValidRows, optSum,
      List.filter_cons, List.filter_nil])
    (by norm_num +decide [linked_total, exampleValidRows, optSum])

/-- C2 is false on the code: a row whose category is present but whose
unlinked weight is missing is counted by the per-category sizes, yet
`dropna()` drops it, so the per-category counts sum to 1 while the
`"Total valid"` row's count is 0. -/
theorem c2_count_sum_counterexample :
    ((summary [partialRow]).map SummaryRow.unweighted_count).sum = 1 ∧
    (totalValidRow [partialRow]).unweighted_count = 0 ∧ (1 : ℕ) ≠ 0 := by
  decide

/-- C2 (amended): the per-category `unweighted_count`s always sum to the
number of rows with a non-null category, and this equals the `"Total valid"`
row's count whenever every categorised row also has both weights present. -/
theorem c2_count_sum_amended (rs : List Row)
    (h : ∀ r ∈ rs, r.transit_mode.isSome →
      (r.unlinked_weight.isSome ∧ r.linked_weight.isSome)) :
    ((summary rs).map SummaryRow.unweighted_count).sum
      = (totalValidRow rs).unweighted_count := by
  have hsum : ((summary rs).map SummaryRow.unweighted_count).sum
      = unweighted_sum rs := by
    rw [summary_map_eq]
    rfl
  rw [hsum, unweighted_sum_eq_validCount]
  show validCount rs = total_valid rs
  unfold validCount validRows total_valid
  congr 1
  apply List.filter_congr
  intro r hr
  rcases hmode : r.transit_mode with _ | c
  · simp [hmode]
  · have hw := h r hr (by rw [hmode]; rfl)
    simp [hmode, hw.1, hw.2]

/-- C2 witness: the amended statement at the all-valid prefix of the worked
example. -/
theorem c2_count_sum_witness :
    ((summary exampleValidRows).map SummaryRow.unweighted_count).sum
      = (totalValidRow exampleValidRows).unweighted_count :=
  c2_count_sum_amended exampleValidRows (by decide)

/-- C3: per-category percent denominators — each summary row's
`unweighted_percent` is its count over the number of non-null-category rows,
and its weight percents are its weight sums over the corresponding weight
sums of all non-null-category rows. -/
theorem c3_percent_denominators (rs : List Row) (row : SummaryRow)
    (h : row ∈ summary rs) :
    row.unweighted_percent = divOpt row.unweighted_count (validCount rs) ∧
    row.unlinked_weight_percent
      = divOpt row.unlinked_weight_sum (validUnlinkedSum rs) ∧
    row.linked_weight_percent
      = divOpt row.linked_weight_sum (validLinkedSum rs) := by
  obtain ⟨c, hc, rfl⟩ := List.mem_map.mp h
  refine ⟨?_, ?_, ?_⟩
  · show divOpt (unweighted rs c) (unweighted_sum rs)
        = divOpt (unweighted rs c) (validCount rs)
    rw [unweighted_sum_eq_validCount]
  · show divOpt (unlinked rs c) (unlinked_sum rs)
        = divOpt (unlinked rs c) (validUnlinkedSum rs)
    rw [unlinked_sum_eq_validUnlinkedSum]
  · show divOpt (linked rs c) (linked_sum rs)
        = divOpt (linked rs c) (validLinkedSum rs)
    rw [linked_sum_eq_validLinkedSum]

/-- C3 witness: the Bus row of the worked example. -/
theorem c3_percent_denominators_witness :
    summaryRow exampleRows "Bus" ∈ summary exampleRows ∧
    ((summaryRow exampleRows "Bus").unweighted_percent
      = divOpt (summaryRow exampleRows "Bus").unweighted_count
          (validCount exampleRows) ∧
     (summaryRow exampleRows "Bus").unlinked_weight_percent
      = divOpt (summaryRow exampleRows "Bus").unlinked_weight_sum
          (validUnlinkedSum exampleRows) ∧
     (summaryRow exampleRows "Bus").linked_weight_percent
      = divOpt (summaryRow exampleRows "Bus").linked_weight_sum
          (validLinkedSum exampleRows)) :=
  ⟨by simp +decide [summary, groupKeys, dedupFirst, dedupFirstFuel, exampleRows,
      List.filter_cons, List.filter_nil],
   c3_percent_denominators exampleRows (summaryRow exampleRows "Bus")
     (by simp +decide [summary, groupKeys, dedupFirst, dedupFirstFuel, exampleRows,
       List.filter_cons, List.filter_nil])⟩

/-- C4 is false on the code: on the worked example the formatted `"Total"`
row renders its three absent percent fields (cells 2, 4 and 6) as the pandas
`na_rep` text `"NaN"`, which is not an empty cell. -/
theorem c4_total_row_render_counterexample :
    (renderRow (totalRow exampleRows)).getD 0 "" = "Total" ∧
    (renderRow (totalRow exampleRows)).getD 1 "" = "4" ∧
    (renderRow (totalRow exampleRows)).getD 2 "" = "NaN" ∧
    (renderRow (totalRow exampleRows)).getD 4 "" = "NaN" ∧
    (renderRow (totalRow exampleRows)).getD 6 "" = "NaN" ∧
    ("NaN" : String) ≠ "" :=
  ⟨rfl, by decide, rfl, rfl, rfl, by decide⟩

/-- C4 (amended): the `"Total"` row's percent fields are indeed absent
(missing markers) in the summary structure for every input, but the
formatted table renders them as the text `"NaN"` (the `to_html` default
`na_rep`), not as empty cells; in particular they are never rendered as a
number such as zero. -/
theorem c4_total_row_render_amended (rs : List Row) :
    (totalRow rs).unweighted_percent = none ∧
    (totalRow rs).unlinked_weight_percent = none ∧
    (totalRow rs).linked_weight_percent = none ∧
    (renderRow (totalRow rs)).getD 2 "" = "NaN" ∧
    (renderRow (totalRow rs)).getD 4 "" = "NaN" ∧
    (renderRow (totalRow rs)).getD 6 "" = "NaN" :=
  ⟨rfl, rfl, rfl, rfl, rfl, rfl⟩

/-- C5 is false on the code: with zero input rows the percent denominator
`total` is zero and building the table raises `ZeroDivisionError` (the
Python `int` division `total_valid / total`), rather than producing a NaN
marker. -/
theorem c5_zero_rows_counterexample :
    tableRows [] = Except.error "ZeroDivisionError" := rfl

/-- C5 (amended): for any input with at least one row the aggregation never
raises, and a zero percent denominator yields an explicit missing marker
(`none`), never zero: zero `unlinked.sum()` (resp. `linked.sum()`) makes
every per-category weight percent `none`, and a zero all-row weight total
makes the corresponding `"Total valid"` weight percent `none`.  With zero
rows the int division `total_valid / total` raises instead (see the C5
counterexample). -/
theorem c5_zero_denominator_amended (rs : List Row) (h : total rs ≠ 0) :
    tableRows rs = Except.ok (summary rs ++ [totalValidRow rs, totalRow rs]) ∧
    (unlinked_sum rs = 0 → ∀ row ∈ summary rs,
      row.unlinked_weight_percent = none ∧
      row.unlinked_weight_percent ≠ some 0) ∧
    (linked_sum rs = 0 → ∀ row ∈ summary rs,
      row.linked_weight_percent = none ∧
      row.linked_weight_percent ≠ some 0) ∧
    (unlinked_total rs = 0 →
      (totalValidRow rs).unlinked_weight_percent = none) ∧
    (linked_total rs = 0 →
      (totalValidRow rs).linked_weight_percent = none) := by
  refine ⟨by simp [tableRows, h], ?_, ?_, ?_, ?_⟩
  · intro h0 row hrow
    obtain ⟨c, hc, rfl⟩ := List.mem_map.mp hrow
    have hp : (summaryRow rs c).unlinked_weight_percent
        = divOpt (unlinked rs c) (unlinked_sum rs) := rfl
    rw [hp, h0]
    simp [divOpt]
  · intro h0 row hrow
    obtain ⟨c, hc, rfl⟩ := List.mem_map.mp hrow
    have hp : (summaryRow rs c).linked_weight_percent
        = divOpt (linked rs c) (linked_sum rs) := rfl
    rw [hp, h0]
    simp [divOpt]
  · intro h0
    show divOpt (unlinked_sum rs) (unlinked_total rs) = none
    rw [h0]
    simp [divOpt]
  · intro h0
    show divOpt (linked_sum rs) (linked_total rs) = none
    rw [h0]
    simp [divOpt]

/-- C5 witness: the amended statement at a one-row input whose weights are
both zero, so every weight denominator is zero while `total = 1`. -/
theorem c5_zero_denominator_witness :
    tableRows zeroWeightRows
      = Except.ok (summary zeroWeightRows
          ++ [totalValidRow zeroWeightRows, totalRow zeroWeightRows]) ∧
    (unlinked_sum zeroWeightRows = 0 → ∀ row ∈ summary zeroWeightRows,
      row.unlinked_weight_percent = none ∧
      row.unlinked_weight_percent ≠ some 0) ∧
    (linked_sum zeroWeightRows = 0 → ∀ row ∈ summary zeroWeightRows,
      row.linked_weight_percent = none ∧
      row.linked_weight_percent ≠ some 0) ∧
    (unlinked_total zeroWeightRows = 0 →
      (totalValidRow zeroWeightRows).unlinked_weight_percent = none) ∧
    (linked_total zeroWeightRows = 0 →
      (totalValidRow zeroWeightRows).linked_weight_percent = none) :=
  c5_zero_denominator_amended zeroWeightRows (by decide)

/-- C6: whenever the three per-category percent denominators are nonzero,
each percent series over the per-category rows sums to exactly one (100%)
in exact arithmetic. -/
theorem c6_percent_series_sum (rs : List Row)
    (h1 : unweighted_sum rs ≠ 0) (h2 : unlinked_sum rs ≠ 0)
    (h3 : linked_sum rs ≠ 0) :
    ((summary rs).map (fun row => row.unweighted_percent.getD 0)).sum = 1 ∧
    ((summary rs).map (fun row => row.unlinked_weight_percent.getD 0)).sum = 1 ∧
    ((summary rs).map (fun row => row.linked_weight_percent.getD 0)).sum = 1 := by
  have hq1 : ((unweighted_sum rs : ℚ)) ≠ 0 := Nat.cast_ne_zero.mpr h1
  refine ⟨?_, ?_, ?_⟩
  · rw [summary_map_eq]
    have hcong : (groupKeys rs).map
          (fun c => ((summaryRow rs c).unweighted_percent).getD 0)
        = (groupKeys rs).map
          (fun c => ((unweighted rs c : ℚ)) / ((unweighted_sum rs : ℚ))) :=
      List.map_congr_left (fun c _ => by
        show (divOpt ((unweighted rs c : ℚ)) ((unweighted_sum rs : ℚ))).getD 0 = _
        rw [divOpt_of_ne hq1]
        rfl)
    rw [hcong, sum_map_div]
    have hcast : (groupKeys rs).map (fun c => ((unweighted rs c : ℕ) : ℚ))
        = ((groupKeys rs).map (unweighted rs)).map (fun n : ℕ => (n : ℚ)) := by
      rw [List.map_map]
      rfl
    rw [hcast, ← Nat.cast_list_sum]
    exact div_self hq1
  · rw [summary_map_eq]
    have hcong : (groupKeys rs).map
          (fun c => ((summaryRow rs c).unlinked_weight_percent).getD 0)
        = (groupKeys rs).map (fun c => unlinked rs c / unlinked_sum rs) :=
      List.map_congr_left (fun c _ => by
        show (divOpt (unlinked rs c) (unlinked_sum rs)).getD 0 = _
        rw [divOpt_of_ne h2]
        rfl)
    rw [hcong, sum_map_div]
    exact div_self h2
  · rw [summary_map_eq]
    have hcong : (groupKeys rs).map
          (fun c => ((summaryRow rs c).linked_weight_percent).getD 0)
        = (groupKeys rs).map (fun c => linked rs c / linked_sum rs) :=
      List.map_congr_left (fun c _ => by
        show (divOpt (linked rs c) (linked_sum rs)).getD 0 = _
        rw [divOpt_of_ne h3]
        rfl)
    rw [hcong, sum_map_div]
    exact div_self h3

/-- C6 witness: the three percent series of the worked example each sum to
one. -/
theorem c6_percent_series_sum_witness :
    ((summary exampleRows).map (fun row => row.unweighted_percent.getD 0)).sum
      = 1 ∧
    ((summary exampleRows).map
      (fun row => row.unlinked_weight_percent.getD 0)).sum = 1 ∧
    ((summary exampleRows).map
      (fun row => row.linked_weight_percent.getD 0)).sum = 1 :=
  c6_percent_series_sum exampleRows
    (by decide)
    (by norm_num +decide [unlinked_sum, groupKeys, dedupFirst, dedupFirstFuel,
      exampleRows, unlinked, catRows, optSum, List.filter_cons, List.filter_nil])
    (by norm_num +decide [linked_sum, groupKeys, dedupFirst, dedupFirstFuel,
      exampleRows, linked, catRows, optSum, List.filter_cons, List.filter_nil])

/-- C7: the spec's worked example evaluates exactly as stated — Bus count 2
at two thirds, Rail count 1 at one third, `"Total valid"` count 3 at 75%,
and `"Total"` count 4 with both weight sums 9 and blank percent fields. -/
theorem c7_worked_example :
    summary exampleRows =
      [{ label := "Bus", unweighted_count := 2,
         unweighted_percent := some (2 / 3),
         unlinked_weight_sum := 2, unlinked_weight_percent := some (1 / 2),
         linked_weight_sum := 2, linked_weight_percent := some (1 / 2) },
       { label := "Rail", unweighted_count := 1,
         unweighted_percent := some (1 / 3),
         unlinked_weight_sum := 2, unlinked_weight_percent := some (1 / 2),
         linked_weight_sum := 2, linked_weight_percent := some (1 / 2) }] ∧
    (totalValidRow exampleRows).unweighted_count = 3 ∧
    (totalValidRow exampleRows).unweighted_percent = some (3 / 4) ∧
    (totalRow exampleRows).unweighted_count = 4 ∧
    (totalRow exampleRows).unlinked_weight_sum = 9 ∧
    (totalRow exampleRows).linked_weight_sum = 9 ∧
    (totalRow exampleRows).unweighted_percent = none ∧
    (totalRow exampleRows).unlinked_weight_percent = none ∧
    (totalRow exampleRows).linked_weight_percent = none := by
  refine ⟨?_, ?_, ?_, ?_, ?_, ?_, rfl, rfl, rfl⟩ <;>
    norm_num +decide [summary, summaryRow, totalValidRow, totalRow, groupKeys,
      dedupFirst, dedupFirstFuel, exampleRows, unweighted, unlinked, linked,
      catRows, total_valid, total, unweighted_sum, unlinked_sum, linked_sum,
      unlinked_total, linked_total, optSum, divOpt, List.filter_cons,
      List.filter_nil]

/-- C8: the chart always holds exactly three bar traces, each trace's x
values are exactly the per-category labels of the `summary` frame (equal to
the group keys — the two appended total rows are not part of `summary` and
so never feed the chart), the y values are the three percent series, and the
y-axis range is fixed to zero-to-one regardless of the data. -/
theorem c8_figure_shape (rs : List Row) :
    (figure rs).traces.length = 3 ∧
    (figure rs).traces.map Trace.x = [groupKeys rs, groupKeys rs, groupKeys rs] ∧
    (figure rs).traces.map Trace.name
      = ["Unweighted", "Weighted (Unlinked)", "Weighted (Linked)"] ∧
    (figure rs).traces.map Trace.y
      = [(summary rs).map SummaryRow.unweighted_percent,
         (summary rs).map SummaryRow.unlinked_weight_percent,
         (summary rs).map SummaryRow.linked_weight_percent] ∧
    (figure rs).yaxis_range = (0, 1) := by
  have hlabel : (summary rs).map SummaryRow.label = groupKeys rs := by
    rw [summary_map_eq]
    simp [summaryRow]
  refine ⟨rfl, ?_, rfl, rfl, rfl⟩
  show [(summary rs).map SummaryRow.label, (summary rs).map SummaryRow.label,
    (summary rs).map SummaryRow.label] = _
  rw [hlabel]

/-- C9 (implicit): a row with a non-null category but a missing weight is
counted in its category's `unweighted_count` (grouping only needs the
category field), yet `dropna()` excludes the same row from the
`"Total valid"` row's count. -/
theorem c9_partial_row_counting (rs : List Row) (r : Row) (c : String)
    (h1 : r.transit_mode = some c)
    (h2 : r.unlinked_weight = none ∨ r.linked_weight = none) :
    unweighted (r :: rs) c = unweighted rs c + 1 ∧
    total_valid (r :: rs) = total_valid rs := by
  constructor
  · unfold unweighted catRows
    rw [List.filter_cons]
    simp [h1]
  · unfold total_valid
    rw [List.filter_cons]
    rcases h2 with h2 | h2 <;> simp [h2]

/-- C9 witness: one Bus row with a missing unlinked weight is counted for
Bus but not for `"Total valid"`. -/
theorem c9_partial_row_counting_witness :
    partialRow.transit_mode = some "Bus" ∧
    (partialRow.unlinked_weight = none ∨ partialRow.linked_weight = none) ∧
    (unweighted [partialRow] "Bus" = unweighted [] "Bus" + 1 ∧
     total_valid [partialRow] = total_valid []) :=
  ⟨rfl, Or.inl rfl,
   c9_partial_row_counting [] partialRow "Bus" rfl (Or.inl rfl)⟩

/-- C10 (implicit): missing weight values contribute nothing to any weight
sum — each per-category weight sum, the `"Total valid"` row's weight sums
and the `"Total"` row's weight sums all equal the sum over the rows whose
weight is present.  All these sums are total rational values by type, never
a missing marker. -/
theorem c10_missing_weights_sums (rs : List Row) :
    (∀ c : String,
      unlinked rs c = ((catRows rs c).filterMap Row.unlinked_weight).sum ∧
      linked rs c = ((catRows rs c).filterMap Row.linked_weight).sum) ∧
    (totalValidRow rs).unlinked_weight_sum
      = ((validRows rs).filterMap Row.unlinked_weight).sum ∧
    (totalValidRow rs).linked_weight_sum
      = ((validRows rs).filterMap Row.linked_weight).sum ∧
    (totalRow rs).unlinked_weight_sum = (rs.filterMap Row.unlinked_weight).sum ∧
    (totalRow rs).linked_weight_sum = (rs.filterMap Row.linked_weight).sum := by
  refine ⟨fun c => ⟨?_, ?_⟩, ?_, ?_, ?_, ?_⟩
  · exact optSum_map_eq_filterMap Row.unlinked_weight (catRows rs c)
  · exact optSum_map_eq_filterMap Row.linked_weight (catRows rs c)
  · show unlinked_sum rs = _
    rw [unlinked_sum_eq_validUnlinkedSum]
    exact optSum_map_eq_filterMap Row.unlinked_weight (validRows rs)
  · show linked_sum rs = _
    rw [linked_sum_eq_validLinkedSum]
    exact optSum_map_eq_filterMap Row.linked_weight (validRows rs)
  · exact optSum_map_eq_filterMap Row.unlinked_weight rs
  · exact optSum_map_eq_filterMap Row.linked_weight rs
